import Mathlib

/-! API Audio Player (`src/js/components/Home.jsx`)

A shallow embedding of the `AudioPlayer` component and of its helper
`formatTime`, followed by the properties of the playback state they maintain.

Modelling conventions.

* A JavaScript number that holds a time is a binary64 value (`Double`): `NaN`,
  an infinity, or a finite value given by the rational it denotes.  Division
  rounds to the nearest binary64 value, ties to even (`Double.ofRat`); `%` and
  `Math.floor` are exact, as in IEEE 754.  The two zeros are one value: no
  operation used here tells them apart.  A number that holds an array index is
  an integer (`ℤ`), with `NaN` as `none`.
* `null` and `undefined` are both `none`.
* The five `useState` cells form `PlaybackState`.  A handler is a closure of one
  render: it *reads* the state values of that render (its first argument) and
  *writes* through the setters, which overwrite cells of the live state.
  Handlers bound in JSX belong to the latest render; the listeners registered by
  the mount effect (dependency list `[]`) belong to the first render for ever.
* Calls on the `<audio>` element and on the console are recorded in a trace.
  The outcome of the promise returned by `audio.play()` is an argument
  (`playOk`).  The second effect (source lines 65-77) only drives the element,
  sets no state cell, and is not part of the development.
-/

namespace AudioPlayer

/-! ## Numbers and strings -/

/-- A JavaScript number.  `fin q` is the finite binary64 value that denotes the
rational `q`. -/
inductive Double where
  | nan
  | inf (negative : Bool)
  | fin (value : ℚ)
deriving DecidableEq, Repr

/-- The integer nearest to `y`, the even one of the two when `y` lies half way. -/
def roundHalfEven (y : ℚ) : ℤ :=
  if y - ⌊y⌋ < 1 / 2 then ⌊y⌋
  else if 1 / 2 < y - ⌊y⌋ then ⌊y⌋ + 1
  else if ⌊y⌋ % 2 = 0 then ⌊y⌋ else ⌊y⌋ + 1

/-- Rounding of a real result to binary64, round-to-nearest-even: 53 significant
bits, least exponent `-1022` (below it the spacing stays `2 ^ -1074`), overflow
to an infinity from `2 ^ 1024` on. -/
def Double.ofRat (q : ℚ) : Double :=
  if q = 0 then Double.fin 0
  else
    let t : ℤ := max (Int.log 2 |q|) (-1022) - 52
    let r : ℚ := roundHalfEven (|q| / 2 ^ t) * 2 ^ t
    if 2 ^ 1024 ≤ r then Double.inf (decide (q < 0))
    else Double.fin (if q < 0 then -r else r)

/-- Rounding towards zero, the quotient rule of the JS `%` operator. -/
def truncate (q : ℚ) : ℤ := if 0 ≤ q then ⌊q⌋ else ⌈q⌉

/-- JS `x / d` for a finite non-zero divisor `d`. -/
def Double.div (x : Double) (d : ℚ) : Double :=
  match x with
  | Double.nan => Double.nan
  | Double.inf negative => Double.inf (negative != decide (d < 0))
  | Double.fin q => Double.ofRat (q / d)

/-- JS `x % d` for a finite non-zero divisor `d`: the exact remainder of the
truncated division (it has the sign of the dividend and is always a binary64
value), `NaN` for a dividend that is not finite. -/
def Double.rem (x : Double) (d : ℚ) : Double :=
  match x with
  | Double.fin q => Double.fin (q - d * truncate (q / d))
  | _ => Double.nan

/-- `Math.floor`. -/
def Double.floor : Double → Double
  | Double.fin q => Double.fin ⌊q⌋
  | x => x

/-- JS `a % b` on integer-valued numbers. -/
def jsRemInt (a b : ℤ) : Option ℤ :=
  if b = 0 then none else some (a.tmod b)

/-- The digits `s` and decimal exponent of a `k`-digit decimal that reads back as
`x`, if there is one: of the two `k`-digit neighbours of `x` the nearer one that
rounds to `x`, the even one on a tie.  `n` is the decimal exponent of `x`. -/
def digitsCandidate (x : ℚ) (n : ℤ) (k : ℕ) : Option (ℕ × ℤ) :=
  let scale : ℚ := 10 ^ (n - k)
  let lo : ℕ := ⌊x / scale⌋₊
  let okLo : Bool := Double.ofRat (lo * scale) == Double.fin x
  let okHi : Bool := Double.ofRat ((lo + 1 : ℕ) * scale) == Double.fin x
  let up : ℕ × ℤ := if lo + 1 = 10 ^ k then (1, n + 1) else (lo + 1, n)
  let below : ℚ := x / scale - lo
  let above : ℚ := (lo + 1 : ℕ) - x / scale
  if okLo && okHi then
    if below < above then some (lo, n)
    else if above < below then some up
    else if lo % 2 = 0 then some (lo, n) else some up
  else if okLo then some (lo, n)
  else if okHi then some up
  else none

/-- Search for the least number of digits, from `k` upwards. -/
def shortestFrom (x : ℚ) (n : ℤ) : ℕ → ℕ → ℕ × ℤ
  | 0, k => (⌊x / 10 ^ (n - k)⌋₊, n)
  | fuel + 1, k =>
    match digitsCandidate x n k with
    | some r => r
    | none => shortestFrom x n fuel (k + 1)

/-- The shortest decimal `s * 10 ^ (n - k)` that reads back as the positive
binary64 value `x` (seventeen digits always do), as the pair `(s, n)`. -/
def shortestDigits (x : ℚ) : ℕ × ℤ := shortestFrom x (Int.log 10 x + 1) 17 1

/-- `Number.prototype.toString` on a finite value `x ≥ 0`.  An integer below
`2 ^ 53` is printed with its own digits (they are its shortest decimal); any
other value with its shortest decimal, in positional form up to `1e21` and in
exponent form beyond. -/
def positiveToString (x : ℚ) : String :=
  if x.den = 1 ∧ x < 2 ^ 53 then Nat.repr ⌊x⌋₊
  else
    let sn := shortestDigits x
    let ds : List Char := (Nat.repr sn.1).data
    let k : ℤ := ds.length
    let n : ℤ := sn.2
    if k ≤ n ∧ n ≤ 21 then String.mk (ds ++ List.replicate (n - k).toNat '0')
    else if 0 < n ∧ n ≤ 21 then String.mk (ds.take n.toNat ++ '.' :: ds.drop n.toNat)
    else if -6 < n ∧ n ≤ 0 then String.mk ('0' :: '.' :: List.replicate (-n).toNat '0' ++ ds)
    else
      let mantissa : List Char := if ds.length = 1 then ds else ds.take 1 ++ '.' :: ds.drop 1
      String.mk mantissa ++ (if 0 ≤ n - 1 then "e+" else "e-") ++ Nat.repr (n - 1).natAbs

/-- `Number.prototype.toString`. -/
def numberToString : Double → String
  | Double.nan => "NaN"
  | Double.inf false => "Infinity"
  | Double.inf true => "-Infinity"
  | Double.fin q => if q < 0 then "-" ++ positiveToString (-q) else positiveToString q

/-- `String.prototype.padStart(targetLength, fill)` for a one-character filler. -/
def padStart (s : String) (targetLength : ℕ) (fill : Char) : String :=
  if targetLength ≤ s.length then s
  else String.mk (List.replicate (targetLength - s.length) fill) ++ s

/-- Source lines 5-9. -/
def formatTime (seconds : Double) : String :=
  let minutes := (seconds.div 60).floor
  let remainingSeconds := (seconds.rem 60).floor
  padStart (numberToString minutes) 2 '0' ++ ":" ++
    padStart (numberToString remainingSeconds) 2 '0'

/-! ## Data model -/

structure Song where
  id : ℤ
  name : String
  url : String
deriving DecidableEq, Repr

/-- The five `useState` cells (source lines 14-22). -/
structure PlaybackState where
  songs : List Song
  currentSong : Option Song
  isPlaying : Bool
  currentTime : Double
  duration : Double
deriving DecidableEq

/-- The values of the first render (the `useState` initialisers). -/
def initialState : PlaybackState :=
  { songs := []
    currentSong := none
    isPlaying := false
    currentTime := Double.fin 0
    duration := Double.fin 0 }

/-- A call issued on the audio element or on the console. -/
inductive Native where
  | play
  | pause
  | setCurrentTime (t : Double)
  | consoleError (msg : String)
deriving DecidableEq, Repr

/-- The component instance: state cells, whether the request of the mount
effect is still in flight, and the trace of native calls (oldest first). -/
structure Player where
  state : PlaybackState
  fetchPending : Bool
  native : List Native
deriving DecidableEq

/-- The player right after mounting: first render committed, request sent. -/
def mounted : Player :=
  { state := initialState, fetchPending := true, native := [] }

/-! ## Handlers -/

/-- The expression `audioRef.current.play().catch(err => console.error(..))`. -/
def audioPlay (playOk : Bool) : List Native :=
  if playOk then [Native.play] else [Native.play, Native.consoleError "Playback error:"]

/-- `Array.prototype.findIndex`: the first index satisfying `pred`, else `-1`. -/
def findIndex (songs : List Song) (pred : Song → Bool) : ℤ :=
  if songs.findIdx pred < songs.length then (songs.findIdx pred : ℤ) else -1

/-- Property access `songs[k]` with a number key: `undefined` unless `k` is an
index of the array. -/
def elementAt (songs : List Song) : Option ℤ → Option Song
  | some (Int.ofNat n) => songs[n]?
  | _ => none

/-- Source lines 80-85. -/
def playSong (song : Option Song) (playOk : Bool) (p : Player) : Player :=
  { p with
    state := { p.state with currentSong := song, isPlaying := true }
    native := p.native ++ audioPlay playOk }

/-- Source lines 88-92, as the closure of render `r`. -/
def playNext (r : PlaybackState) (playOk : Bool) (p : Player) : Player :=
  let index := findIndex r.songs fun s => some s.id == r.currentSong.map Song.id
  let nextIndex := jsRemInt (index + 1) r.songs.length
  playSong (elementAt r.songs nextIndex) playOk p

/-- Source lines 95-99, as the closure of render `r`. -/
def playPrevious (r : PlaybackState) (playOk : Bool) (p : Player) : Player :=
  let index := findIndex r.songs fun s => some s.id == r.currentSong.map Song.id
  let prevIndex := jsRemInt (index - 1 + r.songs.length) r.songs.length
  playSong (elementAt r.songs prevIndex) playOk p

/-- Source lines 102-111, as the closure of render `r`. -/
def togglePlayPause (r : PlaybackState) (playOk : Bool) (p : Player) : Player :=
  if r.currentSong.isNone then p
  else
    { p with
      state := { p.state with isPlaying := !r.isPlaying }
      native := p.native ++ (if r.isPlaying then [Native.pause] else audioPlay playOk) }

/-- Source lines 114-118; `newTime` is `parseFloat(e.target.value)`. -/
def handleTimelineChange (newTime : Double) (p : Player) : Player :=
  { p with
    state := { p.state with currentTime := newTime }
    native := p.native ++ [Native.setCurrentTime newTime] }

/-! ## The mount effect (source lines 27-63) -/

/-- What `res.json()` yields: a rejection, or an object whose `songs` field may
be missing. -/
inductive Body where
  | unparsable
  | json (songs : Option (List Song))
deriving DecidableEq

/-- How the request settles. -/
inductive FetchResult where
  | rejected (msg : String)
  | response (status : ℕ) (body : Body)
deriving DecidableEq

/-- `Response.ok`. -/
def responseOk (status : ℕ) : Bool := decide (200 ≤ status) && decide (status ≤ 299)

/-- The promise chain of source lines 28-43. -/
def onFetchSettled (res : FetchResult) (p : Player) : Player :=
  let failed : Player :=
    { p with native := p.native ++ [Native.consoleError "Error fetching songs:"] }
  match res with
  | FetchResult.rejected _ => failed
  | FetchResult.response status body =>
    if responseOk status then
      match body with
      | Body.unparsable => failed
      | Body.json songs =>
        let fetchedSongs := songs.getD []
        let withSongs : PlaybackState := { p.state with songs := fetchedSongs }
        if 0 < fetchedSongs.length then
          { p with state := { withSongs with currentSong := fetchedSongs[0]? } }
        else
          { p with state := withSongs }
    else failed

/-- The `timeupdate` listener; `audioTime` is `audio.currentTime`. -/
def handleTimeUpdate (audioTime : Double) (p : Player) : Player :=
  { p with state := { p.state with currentTime := audioTime } }

/-- The `loadedmetadata` listener; `audioDuration` is `audio.duration`. -/
def handleLoadedMetadata (audioDuration : Double) (p : Player) : Player :=
  { p with state := { p.state with duration := audioDuration } }

/-- The `ended` listener.  It is created inside the mount effect, so the
`playNext` it calls is the one of the first render. -/
def handleEnded (playOk : Bool) (p : Player) : Player :=
  playNext initialState playOk p

/-! ## Rendering (source lines 120-207) -/

inductive PlaylistItem where
  | loadingMessage
  | entry (id : ℤ) (name : String) (active : Bool)
deriving DecidableEq, Repr

structure View where
  songName : String
  status : String
  previousDisabled : Bool
  playPauseDisabled : Bool
  nextDisabled : Bool
  showsPauseIcon : Bool
  elapsed : String
  sliderMax : Double
  sliderValue : Double
  sliderDisabled : Bool
  total : String
  playlist : List PlaylistItem

/-- The JSX of render `r`; `sliderMax` is `duration || 0`, where only `NaN` and
zero are falsy. -/
def render (r : PlaybackState) : View :=
  { songName := match r.currentSong with
      | some s => s.name
      | none => "Select a song"
    status := if r.currentSong.isSome then "Now Playing" else "Playlist empty"
    previousDisabled := !r.currentSong.isSome
    playPauseDisabled := !r.currentSong.isSome
    nextDisabled := !r.currentSong.isSome
    showsPauseIcon := r.isPlaying
    elapsed := formatTime r.currentTime
    sliderMax := match r.duration with
      | Double.nan => Double.fin 0
      | d => d
    sliderValue := r.currentTime
    sliderDisabled := !r.currentSong.isSome
    total := formatTime r.duration
    playlist :=
      if 0 < r.songs.length then
        r.songs.map fun song =>
          PlaylistItem.entry song.id song.name (r.currentSong.map Song.id == some song.id)
      else [PlaylistItem.loadingMessage] }

/-! ## Events -/

/-- Everything that can run a handler of the mounted component. -/
inductive Event where
  | fetchSettled (res : FetchResult)
  | clickSong (index : ℕ) (playOk : Bool)
  | clickPrevious (playOk : Bool)
  | clickPlayPause (playOk : Bool)
  | clickNext (playOk : Bool)
  | sliderInput (value : Double)
  | timeupdate (audioTime : Double)
  | loadedmetadata (audioDuration : Double)
  | ended (playOk : Bool)

/-- One turn of the event loop.  A disabled control dispatches nothing, a click
needs an existing playlist row, and the request settles once. -/
def step (p : Player) : Event → Player
  | Event.fetchSettled res =>
    if p.fetchPending then { onFetchSettled res p with fetchPending := false } else p
  | Event.clickSong index playOk =>
    match p.state.songs[index]? with
    | some song => playSong (some song) playOk p
    | none => p
  | Event.clickPrevious playOk =>
    if (render p.state).previousDisabled then p else playPrevious p.state playOk p
  | Event.clickPlayPause playOk =>
    if (render p.state).playPauseDisabled then p else togglePlayPause p.state playOk p
  | Event.clickNext playOk =>
    if (render p.state).nextDisabled then p else playNext p.state playOk p
  | Event.sliderInput value =>
    if (render p.state).sliderDisabled then p else handleTimelineChange value p
  | Event.timeupdate audioTime => handleTimeUpdate audioTime p
  | Event.loadedmetadata audioDuration => handleLoadedMetadata audioDuration p
  | Event.ended playOk => handleEnded playOk p

/-- The player after a sequence of events. -/
def run (p : Player) (events : List Event) : Player := events.foldl step p

/-- Pressing Next (resp. Previous) once per entry of `oks`, each press handled
by the closure of the render current at that moment. -/
def pressNext (p : Player) (oks : List Bool) : Player :=
  oks.foldl (fun q ok => playNext q.state ok q) p

def pressPrevious (p : Player) (oks : List Bool) : Player :=
  oks.foldl (fun q ok => playPrevious q.state ok q) p

/-- The invariant of the mounted component: while the request is in flight
nothing is loaded, and a current song is always an entry of the playlist. -/
def Invariant (p : Player) : Prop :=
  (p.fetchPending = true → p.state.songs = [] ∧ p.state.currentSong = none) ∧
  ∀ c, p.state.currentSong = some c → c ∈ p.state.songs

/-! ## Sample data -/

def songA : Song := { id := 1, name := "Castle", url := "/sound/files/mario/songs/castle.mp3" }

def songB : Song := { id := 2, name := "Hurry", url := "/sound/files/mario/songs/hurry.mp3" }

def songC : Song := { id := 3, name := "Overworld", url := "/sound/files/mario/songs/overworld.mp3" }

/-- An entry that carries the same id as `songA`. -/
def songD : Song := { id := 1, name := "Stage", url := "/sound/files/mario/songs/stage1.mp3" }

/-- The player once the request has succeeded with the list `fetched`. -/
def loaded (fetched : List Song) : Player :=
  step mounted (Event.fetchSettled (FetchResult.response 200 (Body.json (some fetched))))

/-- A player whose current song is not an entry of its playlist. -/
def strayPlayer : Player :=
  { state := { initialState with songs := [songA, songB], currentSong := some songC }
    fetchPending := false
    native := [] }

/-! ## Time formatter -/

theorem two_zpow_log_le (a : ℚ) (ha : 0 < a) : (2 : ℚ) ^ Int.log 2 a ≤ a := by
  simpa using Int.zpow_log_le_self (b := 2) (R := ℚ) one_lt_two ha

theorem lt_two_zpow_log (a : ℚ) : a < (2 : ℚ) ^ (Int.log 2 a + 1) := by
  simpa using Int.lt_zpow_succ_log_self (b := 2) (R := ℚ) one_lt_two a

theorem log_lt_of_lt_zpow (a : ℚ) (z : ℤ) (ha : 0 < a) (h : a < (2 : ℚ) ^ z) :
    Int.log 2 a < z := by
  have := (Int.lt_zpow_iff_log_lt (b := 2) (R := ℚ) one_lt_two (x := z) ha).mp (by simpa using h)
  exact this

theorem le_log_of_zpow_le (a : ℚ) (z : ℤ) (ha : 0 < a) (h : (2 : ℚ) ^ z ≤ a) :
    z ≤ Int.log 2 a := by
  have := (Int.zpow_le_iff_le_log (b := 2) (R := ℚ) one_lt_two (x := z) ha).mp (by simpa using h)
  exact this

theorem roundHalfEven_le (y : ℚ) : (roundHalfEven y : ℚ) ≤ y + 1 / 2 := by
  have h1 := Int.floor_le y
  unfold roundHalfEven
  split_ifs with h2 h3 h4
  · linarith
  · push_cast; linarith
  · linarith
  · push_cast; linarith

theorem floor_le_roundHalfEven (y : ℚ) : ⌊y⌋ ≤ roundHalfEven y := by
  unfold roundHalfEven
  split_ifs <;> omega

theorem roundHalfEven_intCast (K : ℤ) : roundHalfEven (K : ℚ) = K := by
  unfold roundHalfEven
  simp

/-- A binary64 value `v ≥ 16` is an integer multiple of its unit in the last
place. -/
theorem grid_of_fixed (v : ℚ) (hv : 16 ≤ v) (hd : Double.ofRat v = Double.fin v) :
    ∃ nv : ℤ, v = nv * (2 : ℚ) ^ (Int.log 2 v - 52) := by
  have hpos : 0 < v := by linarith
  have hl : 4 ≤ Int.log 2 v := le_log_of_zpow_le v 4 hpos (by norm_num; linarith)
  have hmax : max (Int.log 2 v) (-1022) = Int.log 2 v := max_eq_left (by omega)
  simp only [Double.ofRat, if_neg hpos.ne', abs_of_pos hpos, hmax, not_lt.mpr hpos.le,
    if_false] at hd
  split_ifs at hd with h1
  exact ⟨_, (Double.fin.inj hd).symm⟩

/-- The distance from a binary64 value `v` to the next multiple of 60 exceeds
60 times half the spacing of binary64 values around `v / 60`: the rounded
quotient cannot reach the next integer.  The margin is 32 against 30. -/
theorem rounding_gap (v : ℚ) (hd : Double.ofRat v = Double.fin v) (h0 : 0 < v)
    (hlt : v < 60 * 2 ^ 50) :
    30 * (2 : ℚ) ^ (max (Int.log 2 (v / 60)) (-1022) - 52) < 60 * (⌊v / 60⌋ + 1) - v := by
  have hxpos : 0 < v / 60 := by positivity
  have hx50 : v / 60 < 2 ^ 50 := by rw [div_lt_iff₀ (by norm_num)]; linarith
  have he : Int.log 2 (v / 60) < 50 := log_lt_of_lt_zpow _ 50 hxpos (by exact_mod_cast hx50)
  have hk1 : ((⌊v / 60⌋ : ℤ) : ℚ) ≤ v / 60 := Int.floor_le _
  have hk2 : v / 60 < ⌊v / 60⌋ + 1 := Int.lt_floor_add_one _
  have hk0 : 0 ≤ ⌊v / 60⌋ := Int.floor_nonneg.mpr hxpos.le
  by_cases hhalf : v / 60 < 1 / 2
  · -- the quotient is below one half: the next integer is far away
    have hk : ⌊v / 60⌋ = 0 := by
      have : ((⌊v / 60⌋ : ℤ) : ℚ) < 1 := by linarith
      have : ⌊v / 60⌋ < 1 := by exact_mod_cast this
      omega
    have ht : (2 : ℚ) ^ (max (Int.log 2 (v / 60)) (-1022) - 52) ≤ 1 := by
      have := zpow_le_zpow_right₀ (a := (2 : ℚ)) (by norm_num)
        (show max (Int.log 2 (v / 60)) (-1022) - 52 ≤ 0 by omega)
      simpa using this
    rw [hk]
    have : v < 30 := by
      have := (div_lt_iff₀ (by norm_num : (0 : ℚ) < 60)).mp hhalf
      linarith
    push_cast
    linarith
  · push_neg at hhalf
    have hem1 : -1 ≤ Int.log 2 (v / 60) :=
      le_log_of_zpow_le _ (-1) hxpos (by norm_num; linarith)
    have hmax : max (Int.log 2 (v / 60)) (-1022) = Int.log 2 (v / 60) := max_eq_left (by omega)
    rw [hmax]
    have hv30 : 30 ≤ v := by
      have := (le_div_iff₀ (by norm_num : (0 : ℚ) < 60)).mp hhalf
      linarith
    obtain ⟨nv, hnv⟩ := grid_of_fixed v (by linarith) hd
    -- the exponent of the quotient is at least five below the exponent of `v`
    have hexp : Int.log 2 (v / 60) + 5 ≤ Int.log 2 v := by
      have h1 : (2 : ℚ) ^ (Int.log 2 (v / 60) + 5) < (2 : ℚ) ^ (Int.log 2 v + 1) := by
        have ha := two_zpow_log_le (v / 60) hxpos
        have hb := lt_two_zpow_log v
        have hc : (2 : ℚ) ^ (Int.log 2 (v / 60) + 5) = (2 : ℚ) ^ Int.log 2 (v / 60) * 32 := by
          rw [zpow_add₀ (by norm_num)]; norm_num
        have hd' : (2 : ℚ) ^ Int.log 2 (v / 60) * 60 ≤ v :=
          (le_div_iff₀ (by norm_num : (0 : ℚ) < 60)).mp ha
        have hpow : 0 < (2 : ℚ) ^ Int.log 2 (v / 60) := by positivity
        rw [hc]
        linarith
      have := (zpow_lt_zpow_iff_right₀ (a := (2 : ℚ)) (by norm_num)).mp h1
      omega
    have hdelta : 0 < 60 * ((⌊v / 60⌋ : ℚ) + 1) - v := by
      have := (div_lt_iff₀ (by norm_num : (0 : ℚ) < 60)).mp hk2
      linarith
    set e := Int.log 2 (v / 60) with he_def
    set tv := Int.log 2 v - 52 with htv
    clear_value tv e
    have hte : e - 52 ≤ tv - 5 := by omega
    have h2tv : 0 < (2 : ℚ) ^ tv := by positivity
    by_cases hsmall : tv ≤ 2
    · -- both 60 (k + 1) and v are multiples of 2 ^ tv
      have h60 : (60 : ℚ) = 15 * 2 ^ ((2 - tv).toNat) * 2 ^ tv := by
        rw [← zpow_natCast, Int.toNat_of_nonneg (by omega), mul_assoc, ← zpow_add₀ (by norm_num)]
        norm_num
      have hZ : 60 * ((⌊v / 60⌋ : ℚ) + 1) - v
          = ((15 * 2 ^ ((2 - tv).toNat) * (⌊v / 60⌋ + 1) - nv : ℤ) : ℚ) * 2 ^ tv := by
        push_cast
        rw [hnv]
        nth_rewrite 1 [h60]
        ring
      have hZpos : 0 < (15 * 2 ^ ((2 - tv).toNat) * (⌊v / 60⌋ + 1) - nv : ℤ) := by
        have := hdelta
        rw [hZ] at this
        have := (mul_pos_iff_of_pos_right h2tv).mp this
        exact_mod_cast this
      have hZ1 : (1 : ℚ) ≤ ((15 * 2 ^ ((2 - tv).toNat) * (⌊v / 60⌋ + 1) - nv : ℤ) : ℚ) := by
        exact_mod_cast hZpos
      have hge : (2 : ℚ) ^ tv ≤ 60 * ((⌊v / 60⌋ : ℚ) + 1) - v := by
        rw [hZ]
        nlinarith
      have hpow : (2 : ℚ) ^ (e - 52) ≤ (2 : ℚ) ^ (tv - 5) :=
        zpow_le_zpow_right₀ (by norm_num) hte
      have hpow2 : (2 : ℚ) ^ (tv - 5) = (2 : ℚ) ^ tv / 32 := by
        rw [zpow_sub₀ (by norm_num)]; norm_num
      rw [hpow2] at hpow
      linarith
    · push_neg at hsmall
      have h2 : (2 : ℚ) ^ tv = 4 * 2 ^ ((tv - 2).toNat) := by
        have h3 : (2 : ℚ) ^ ((tv - 2).toNat) = (2 : ℚ) ^ (tv - 2) := by
          rw [← zpow_natCast, Int.toNat_of_nonneg (by omega)]
        have h4 : (2 : ℚ) ^ tv = 2 ^ (2 : ℤ) * 2 ^ (tv - 2) := by
          rw [← zpow_add₀ (by norm_num)]
          congr 1
          ring
        rw [h3, h4]
        norm_num
      have hZ : 60 * ((⌊v / 60⌋ : ℚ) + 1) - v
          = ((15 * (⌊v / 60⌋ + 1) - nv * 2 ^ ((tv - 2).toNat) : ℤ) : ℚ) * 4 := by
        push_cast
        rw [hnv, h2]
        ring
      have hZpos : 0 < (15 * (⌊v / 60⌋ + 1) - nv * 2 ^ ((tv - 2).toNat) : ℤ) := by
        have := hdelta
        rw [hZ] at this
        have := (mul_pos_iff_of_pos_right (by norm_num : (0 : ℚ) < 4)).mp this
        exact_mod_cast this
      have hZ1 : (1 : ℚ) ≤ ((15 * (⌊v / 60⌋ + 1) - nv * 2 ^ ((tv - 2).toNat) : ℤ) : ℚ) := by
        exact_mod_cast hZpos
      have hge : (4 : ℚ) ≤ 60 * ((⌊v / 60⌋ : ℚ) + 1) - v := by
        rw [hZ]
        linarith
      have hpow : (2 : ℚ) ^ (e - 52) ≤ (2 : ℚ) ^ (-3 : ℤ) :=
        zpow_le_zpow_right₀ (by norm_num) (by omega)
      have hpow2 : (2 : ℚ) ^ (-3 : ℤ) = 1 / 8 := by norm_num
      rw [hpow2] at hpow
      linarith

/-- The rounded quotient `v / 60` has the floor of the exact quotient. -/
theorem ofRat_div_sixty (v : ℚ) (hd : Double.ofRat v = Double.fin v) (h0 : 0 ≤ v)
    (hlt : v < 60 * 2 ^ 50) :
    ∃ r : ℚ, Double.ofRat (v / 60) = Double.fin r ∧ ⌊r⌋ = ⌊v / 60⌋ := by
  rcases h0.eq_or_lt with hz | hpos
  · subst hz
    exact ⟨0, by simp [Double.ofRat], by simp⟩
  have hxpos : 0 < v / 60 := by positivity
  have hgap := rounding_gap v hd hpos hlt
  have hx50 : v / 60 < 2 ^ 50 := by rw [div_lt_iff₀ (by norm_num)]; linarith
  have he : Int.log 2 (v / 60) < 50 := log_lt_of_lt_zpow _ 50 hxpos (by exact_mod_cast hx50)
  have hk1 : ((⌊v / 60⌋ : ℤ) : ℚ) ≤ v / 60 := Int.floor_le _
  have hk2 : v / 60 < ⌊v / 60⌋ + 1 := Int.lt_floor_add_one _
  obtain ⟨t, ht⟩ : ∃ t : ℤ, t = max (Int.log 2 (v / 60)) (-1022) - 52 := ⟨_, rfl⟩
  rw [← ht] at hgap
  have ht0 : t ≤ 0 := by omega
  have h2t : 0 < (2 : ℚ) ^ t := by positivity
  -- the floor of the quotient lies on the grid of spacing 2 ^ t
  have hK : ((⌊v / 60⌋ * 2 ^ ((-t).toNat) : ℤ) : ℚ) = ⌊v / 60⌋ / 2 ^ t := by
    push_cast
    rw [← zpow_natCast, Int.toNat_of_nonneg (by omega), zpow_neg]
    field_simp
  have hlow : ((⌊v / 60⌋ : ℤ) : ℚ) ≤ roundHalfEven (v / 60 / 2 ^ t) * 2 ^ t := by
    have h1 : ⌊v / 60⌋ * 2 ^ ((-t).toNat) ≤ roundHalfEven (v / 60 / 2 ^ t) := by
      refine le_trans (Int.le_floor.mpr ?_) (floor_le_roundHalfEven _)
      rw [hK]
      exact div_le_div_of_nonneg_right hk1 h2t.le
    have h2 : ((⌊v / 60⌋ * 2 ^ ((-t).toNat) : ℤ) : ℚ) ≤ roundHalfEven (v / 60 / 2 ^ t) := by
      exact_mod_cast h1
    rw [hK] at h2
    exact (div_le_iff₀ h2t).mp h2
  have hupp : (roundHalfEven (v / 60 / 2 ^ t) : ℚ) * 2 ^ t < ⌊v / 60⌋ + 1 := by
    have h1 := roundHalfEven_le (v / 60 / 2 ^ t)
    have h2 : (roundHalfEven (v / 60 / 2 ^ t) : ℚ) * 2 ^ t ≤ v / 60 + 2 ^ t / 2 := by
      calc (roundHalfEven (v / 60 / 2 ^ t) : ℚ) * 2 ^ t
          ≤ (v / 60 / 2 ^ t + 1 / 2) * 2 ^ t := mul_le_mul_of_nonneg_right h1 h2t.le
        _ = v / 60 + 2 ^ t / 2 := by field_simp; ring
    linarith
  have hbig : ¬ (2 : ℚ) ^ 1024 ≤ roundHalfEven (v / 60 / 2 ^ t) * 2 ^ t := by
    have h1 : (2 : ℚ) ^ 50 + 1 ≤ 2 ^ 1024 := by
      have : (2 : ℚ) ^ 51 ≤ 2 ^ 1024 := pow_le_pow_right₀ (by norm_num) (by norm_num)
      have h51 : (2 : ℚ) ^ 51 = 2 ^ 50 * 2 := by norm_num
      have h50 : (1 : ℚ) ≤ 2 ^ 50 := one_le_pow₀ (by norm_num)
      linarith
    linarith
  refine ⟨roundHalfEven (v / 60 / 2 ^ t) * 2 ^ t, ?_, Int.floor_eq_iff.mpr ⟨hlow, hupp⟩⟩
  simp only [Double.ofRat, if_neg hxpos.ne', abs_of_pos hxpos, ← ht, if_neg hbig,
    if_neg (not_lt.mpr hxpos.le)]

/-- Every `m * 2 ^ e` with `m < 2 ^ 53` and `-1074 ≤ e ≤ 971` is a binary64 value. -/
theorem ofRat_dyadic (m : ℕ) (e : ℤ) (hm : m < 2 ^ 53) (he1 : -1074 ≤ e) (he2 : e ≤ 971) :
    Double.ofRat (m * (2 : ℚ) ^ e) = Double.fin (m * (2 : ℚ) ^ e) := by
  rcases Nat.eq_zero_or_pos m with hz | hmpos
  · subst hz
    simp [Double.ofRat]
  have h2e : 0 < (2 : ℚ) ^ e := by positivity
  have hq : 0 < (m : ℚ) * 2 ^ e := by positivity
  obtain ⟨t, ht⟩ : ∃ t : ℤ, t = max (Int.log 2 ((m : ℚ) * 2 ^ e)) (-1022) - 52 := ⟨_, rfl⟩
  have hlog : Int.log 2 ((m : ℚ) * 2 ^ e) < 53 + e := by
    apply log_lt_of_lt_zpow _ _ hq
    rw [zpow_add₀ (by norm_num)]
    have : (m : ℚ) < 2 ^ (53 : ℤ) := by exact_mod_cast hm
    exact mul_lt_mul_of_pos_right this h2e
  have hte : t ≤ e := by omega
  have h2t : 0 < (2 : ℚ) ^ t := by positivity
  have hy : (m : ℚ) * 2 ^ e / 2 ^ t = ((m * 2 ^ ((e - t).toNat) : ℤ) : ℚ) := by
    push_cast
    rw [← zpow_natCast, Int.toNat_of_nonneg (by omega), zpow_sub₀ (by norm_num)]
    field_simp
  have hr : (roundHalfEven ((m : ℚ) * 2 ^ e / 2 ^ t) : ℚ) * 2 ^ t = m * 2 ^ e := by
    rw [hy, roundHalfEven_intCast, ← hy]
    field_simp
  have hbig : ¬ (2 : ℚ) ^ 1024 ≤ m * 2 ^ e := by
    push_neg
    have h1 : (m : ℚ) * 2 ^ e < 2 ^ (53 : ℤ) * 2 ^ e :=
      mul_lt_mul_of_pos_right (by exact_mod_cast hm) h2e
    have h2 : (2 : ℚ) ^ (53 : ℤ) * 2 ^ e ≤ 2 ^ ((1024 : ℕ) : ℤ) := by
      rw [← zpow_add₀ (by norm_num)]
      exact zpow_le_zpow_right₀ (by norm_num) (by omega)
    rw [zpow_natCast] at h2
    linarith
  simp only [Double.ofRat, if_neg hq.ne', abs_of_pos hq, ← ht, hr, if_neg hbig,
    if_neg (not_lt.mpr hq.le)]

theorem ofRat_natCast (n : ℕ) (hn : n < 2 ^ 53) : Double.ofRat (n : ℚ) = Double.fin n := by
  simpa using ofRat_dyadic n 0 hn (by norm_num) (by norm_num)

theorem numberToString_natCast (n : ℕ) (hn : n < 2 ^ 53) :
    numberToString (Double.fin (n : ℚ)) = Nat.repr n := by
  have h1 : ¬ ((n : ℚ) < 0) := not_lt.mpr (Nat.cast_nonneg n)
  have h2 : (n : ℚ) < 2 ^ 53 := by exact_mod_cast hn
  simp [numberToString, positiveToString, h1, h2]

theorem floor_div_sixty (v : ℚ) (hv : 0 ≤ v) : ⌊v / 60⌋ = ((⌊v⌋₊ / 60 : ℕ) : ℤ) := by
  have h1 : ⌊v / ((60 : ℕ) : ℚ)⌋₊ = ⌊v⌋₊ / 60 := Nat.floor_div_nat v 60
  have h2 : (0 : ℚ) ≤ v / 60 := by positivity
  rw [← Int.natCast_floor_eq_floor h2]
  exact_mod_cast congrArg (fun n : ℕ => (n : ℤ)) h1

theorem floor_rem_sixty (v : ℚ) (hv : 0 ≤ v) :
    ⌊v - 60 * (truncate (v / 60) : ℚ)⌋ = ((⌊v⌋₊ % 60 : ℕ) : ℤ) := by
  have h2 : (0 : ℚ) ≤ v / 60 := by positivity
  have hq := floor_div_sixty v hv
  have hf : (⌊v⌋₊ : ℤ) = ⌊v⌋ := Int.natCast_floor_eq_floor hv
  have hdm := Nat.div_add_mod ⌊v⌋₊ 60
  simp only [truncate, if_pos h2]
  have : v - 60 * ((⌊v / 60⌋ : ℤ) : ℚ) = v - ((60 * ⌊v / 60⌋ : ℤ) : ℚ) := by push_cast; ring
  rw [this, Int.floor_sub_int, hq, ← hf]
  omega

theorem padStart_eq (s : String) (n : ℕ) (c : Char) :
    padStart s n c = String.mk (List.replicate (n - s.length) c) ++ s := by
  unfold padStart
  split
  · next h =>
    rw [Nat.sub_eq_zero_of_le h]
    apply String.ext
    simp
  · rfl

theorem repr_length_le_two : ∀ s < 60, (Nat.repr s).length ≤ 2 := by decide

/-- The output of `formatTime` on a binary64 value below `60 * 2 ^ 50`. -/
theorem formatTime_eq (v : ℚ) (hd : Double.ofRat v = Double.fin v) (hv : 0 ≤ v)
    (hlt : v < 60 * 2 ^ 50) :
    formatTime (Double.fin v) =
      String.mk (List.replicate (2 - (Nat.repr (⌊v⌋₊ / 60)).length) '0') ++ Nat.repr (⌊v⌋₊ / 60)
        ++ ":" ++
      (String.mk (List.replicate (2 - (Nat.repr (⌊v⌋₊ % 60)).length) '0')
        ++ Nat.repr (⌊v⌋₊ % 60)) := by
  obtain ⟨r, hr, hfloor⟩ := ofRat_div_sixty v hd hv hlt
  have hm : ⌊v⌋₊ / 60 < 2 ^ 53 := by
    have h1 : ((⌊v⌋₊ / 60 : ℕ) : ℚ) ≤ v / 60 := by
      have := Int.floor_le (v / 60)
      rw [floor_div_sixty v hv] at this
      exact_mod_cast this
    have h2 : v / 60 < 2 ^ 50 := by rw [div_lt_iff₀ (by norm_num)]; linarith
    have h3 : ((⌊v⌋₊ / 60 : ℕ) : ℚ) < ((2 ^ 53 : ℕ) : ℚ) := by
      push_cast
      have : (2 : ℚ) ^ 50 ≤ 2 ^ 53 := pow_le_pow_right₀ (by norm_num) (by norm_num)
      linarith
    exact_mod_cast h3
  have hs : ⌊v⌋₊ % 60 < 2 ^ 53 := lt_trans (Nat.mod_lt _ (by norm_num)) (by norm_num)
  have hmin : (Double.fin v).div 60 = Double.fin r := hr
  have hfl : (Double.fin r).floor = Double.fin ((⌊v⌋₊ / 60 : ℕ) : ℚ) := by
    simp only [Double.floor, hfloor, floor_div_sixty v hv]
    norm_cast
  have hrem : ((Double.fin v).rem 60).floor = Double.fin ((⌊v⌋₊ % 60 : ℕ) : ℚ) := by
    simp only [Double.rem, Double.floor, floor_rem_sixty v hv]
    norm_cast
  unfold formatTime
  simp only [hmin, hfl, hrem, numberToString_natCast _ hm, numberToString_natCast _ hs,
    padStart_eq]

/-- Rounding a positive rational with binary exponent `e`: the result is the
multiple `n * 2 ^ (e - 52)` within half a unit. -/
theorem ofRat_of_nearest (q : ℚ) (e n : ℤ) (h1 : (2 : ℚ) ^ e ≤ q) (h2 : q < (2 : ℚ) ^ (e + 1))
    (he : -1022 ≤ e) (hn1 : (n : ℚ) - 1 / 2 < q / 2 ^ (e - 52))
    (hn2 : q / 2 ^ (e - 52) < n + 1 / 2) (hbig : (n : ℚ) * 2 ^ (e - 52) < 2 ^ 1024) :
    Double.ofRat q = Double.fin (n * 2 ^ (e - 52)) := by
  have hq : 0 < q := lt_of_lt_of_le (by positivity) h1
  have hlog : Int.log 2 q = e := by
    have ha := le_log_of_zpow_le q e hq h1
    have hb := log_lt_of_lt_zpow q (e + 1) hq h2
    omega
  have hmax : max (Int.log 2 q) (-1022) = e := by rw [hlog]; exact max_eq_left he
  have hround : roundHalfEven (q / 2 ^ (e - 52)) = n := by
    have hf1 := Int.floor_le (q / 2 ^ (e - 52))
    have hf2 := Int.lt_floor_add_one (q / 2 ^ (e - 52))
    unfold roundHalfEven
    split_ifs with c1 c2 c3
    · have a1 : (n : ℚ) < ⌊q / 2 ^ (e - 52)⌋ + 1 := by linarith
      have a2 : ((⌊q / 2 ^ (e - 52)⌋ : ℤ) : ℚ) < n + 1 := by linarith
      have b1 : n < ⌊q / 2 ^ (e - 52)⌋ + 1 := by exact_mod_cast a1
      have b2 : ⌊q / 2 ^ (e - 52)⌋ < n + 1 := by exact_mod_cast a2
      omega
    · have a1 : (n : ℚ) < ⌊q / 2 ^ (e - 52)⌋ + 1 + 1 := by linarith
      have a2 : ((⌊q / 2 ^ (e - 52)⌋ : ℤ) : ℚ) + 1 < n + 1 := by linarith
      have b1 : n < ⌊q / 2 ^ (e - 52)⌋ + 1 + 1 := by exact_mod_cast a1
      have b2 : ⌊q / 2 ^ (e - 52)⌋ + 1 < n + 1 := by exact_mod_cast a2
      omega
    · exfalso
      have a1 : (n : ℚ) < ⌊q / 2 ^ (e - 52)⌋ + 1 := by linarith
      have a2 : ((⌊q / 2 ^ (e - 52)⌋ : ℤ) : ℚ) < n := by linarith
      have b1 : n < ⌊q / 2 ^ (e - 52)⌋ + 1 := by exact_mod_cast a1
      have b2 : ⌊q / 2 ^ (e - 52)⌋ < n := by exact_mod_cast a2
      omega
    · exfalso
      have a1 : (n : ℚ) < ⌊q / 2 ^ (e - 52)⌋ + 1 := by linarith
      have a2 : ((⌊q / 2 ^ (e - 52)⌋ : ℤ) : ℚ) < n := by linarith
      have b1 : n < ⌊q / 2 ^ (e - 52)⌋ + 1 := by exact_mod_cast a1
      have b2 : ⌊q / 2 ^ (e - 52)⌋ < n := by exact_mod_cast a2
      omega
  simp only [Double.ofRat, if_neg hq.ne', abs_of_pos hq, hmax, hround, if_neg (not_le.mpr hbig),
    if_neg (not_lt.mpr hq.le)]

/-- C1 (amended): for every finite non-negative binary64 number of seconds `v`
below `60 * 2 ^ 50` (possibly fractional), `formatTime v` is the decimal
rendering of `floor v / 60` left-padded with `'0'` to width at least 2, a colon,
and the decimal rendering of `floor v % 60` left-padded with `'0'` to width
exactly 2; the minutes are not reduced modulo anything.  In particular
`formatTime 0 = "00:00"`, `formatTime 65 = "01:05"`, `formatTime 3661 = "61:01"`. -/
theorem formatTime_spec (v : ℚ) (hd : Double.ofRat v = Double.fin v) (hv : 0 ≤ v)
    (hlt : v < 60 * 2 ^ 50) :
    formatTime (Double.fin v) =
      String.mk (List.replicate (2 - (Nat.repr (⌊v⌋₊ / 60)).length) '0') ++ Nat.repr (⌊v⌋₊ / 60)
        ++ ":" ++
      (String.mk (List.replicate (2 - (Nat.repr (⌊v⌋₊ % 60)).length) '0')
        ++ Nat.repr (⌊v⌋₊ % 60)) ∧
    2 ≤ (String.mk (List.replicate (2 - (Nat.repr (⌊v⌋₊ / 60)).length) '0')
      ++ Nat.repr (⌊v⌋₊ / 60)).length ∧
    (String.mk (List.replicate (2 - (Nat.repr (⌊v⌋₊ % 60)).length) '0')
      ++ Nat.repr (⌊v⌋₊ % 60)).length = 2 ∧
    formatTime (Double.fin 0) = "00:00" ∧ formatTime (Double.fin 65) = "01:05" ∧
      formatTime (Double.fin 3661) = "61:01" := by
  have hs := repr_length_le_two (⌊v⌋₊ % 60) (Nat.mod_lt _ (by norm_num))
  refine ⟨formatTime_eq v hd hv hlt, ?_, ?_, ?_, ?_, ?_⟩
  · simp only [String.length_append, String.length_mk, List.length_replicate]
    omega
  · simp only [String.length_append, String.length_mk, List.length_replicate]
    omega
  · have h := formatTime_eq 0 (by simpa using ofRat_natCast 0 (by norm_num)) le_rfl (by norm_num)
    rw [h, Nat.floor_zero]
    decide
  · have h := formatTime_eq 65 (by simpa using ofRat_natCast 65 (by norm_num)) (by norm_num)
      (by norm_num)
    rw [h, Nat.floor_ofNat]
    decide
  · have h := formatTime_eq 3661 (by simpa using ofRat_natCast 3661 (by norm_num))
      (by norm_num) (by norm_num)
    rw [h, Nat.floor_ofNat]
    decide

theorem formatTime_spec_witness :
    Double.ofRat (7 / 2) = Double.fin (7 / 2) ∧
      formatTime (Double.fin (7 / 2)) = "00" ++ ":" ++ "03" := by
  have hd : Double.ofRat (7 / 2) = Double.fin (7 / 2) := by
    have h := ofRat_dyadic 7 (-1) (by norm_num) (by norm_num) (by norm_num)
    have h7 : ((7 : ℕ) : ℚ) * 2 ^ (-1 : ℤ) = 7 / 2 := by norm_num
    rwa [h7] at h
  refine ⟨hd, ?_⟩
  have h := (formatTime_spec (7 / 2) hd (by norm_num) (by norm_num)).1
  have hf : ⌊(7 / 2 : ℚ)⌋₊ = 3 := by
    rw [Nat.floor_eq_iff (by norm_num)]
    norm_num
  rw [h, hf]
  decide

/-- C1 (as stated) fails: 67553994410557496 is a binary64 value; the quotient by
60 rounds up to the integer 1125899906842625, so `formatTime` prints that as
minutes, where `floor v / 60` is 1125899906842624; and on `Infinity` the result
is `"Infinity:NaN"`. -/
theorem formatTime_rounded_quotient :
    Double.ofRat 67553994410557496 = Double.fin 67553994410557496 ∧
    formatTime (Double.fin 67553994410557496) = "1125899906842625:56" ∧
    Nat.repr (⌊(67553994410557496 : ℚ)⌋₊ / 60) = "1125899906842624" ∧
    Nat.repr (⌊(67553994410557496 : ℚ)⌋₊ % 60) = "56" ∧
    formatTime (Double.inf false) = "Infinity:NaN" := by
  have hd : Double.ofRat 67553994410557496 = Double.fin 67553994410557496 := by
    have h := ofRat_dyadic 8444249301319687 3 (by norm_num) (by norm_num) (by norm_num)
    have h8 : ((8444249301319687 : ℕ) : ℚ) * 2 ^ (3 : ℤ) = 67553994410557496 := by norm_num
    rwa [h8] at h
  have hq : Double.ofRat (67553994410557496 / 60) = Double.fin 1125899906842625 := by
    have h := ofRat_of_nearest (67553994410557496 / 60) 50 4503599627370500
      (by norm_num) (by norm_num) (by norm_num) (by norm_num) (by norm_num)
      (by
        have h1 : (2 : ℚ) ^ (50 - 52 : ℤ) ≤ 1 := by norm_num
        have h2 : (2 : ℚ) ^ 60 ≤ 2 ^ 1024 := pow_le_pow_right₀ (by norm_num) (by norm_num)
        have h3 : ((4503599627370500 : ℤ) : ℚ) < 2 ^ 60 := by norm_num
        have h5 : ((4503599627370500 : ℤ) : ℚ) * 2 ^ (50 - 52 : ℤ)
            ≤ ((4503599627370500 : ℤ) : ℚ) * 1 :=
          mul_le_mul_of_nonneg_left h1 (by norm_num)
        linarith)
    have h4 : ((4503599627370500 : ℤ) : ℚ) * 2 ^ (50 - 52 : ℤ) = 1125899906842625 := by norm_num
    rwa [h4] at h
  have hfloor : ⌊(67553994410557496 : ℚ)⌋₊ = 67553994410557496 := Nat.floor_ofNat _
  refine ⟨hd, ?_, ?_, ?_, ?_⟩
  · have hmin : (Double.fin 1125899906842625).floor
        = Double.fin ((1125899906842625 : ℕ) : ℚ) := by
      simp [Double.floor]
    have hrem : ((Double.fin 67553994410557496).rem 60).floor = Double.fin ((56 : ℕ) : ℚ) := by
      simp only [Double.rem, Double.floor, floor_rem_sixty 67553994410557496 (by norm_num),
        hfloor]
      norm_num
    have hdiv : (Double.fin 67553994410557496).div 60 = Double.fin 1125899906842625 := hq
    unfold formatTime
    simp only [hdiv, hmin, hrem, numberToString_natCast _ (by norm_num : 1125899906842625 < 2 ^ 53),
      numberToString_natCast _ (by norm_num : 56 < 2 ^ 53), padStart_eq]
    decide
  · rw [hfloor]
    decide
  · rw [hfloor]
    decide
  · simp [formatTime, Double.div, Double.rem, Double.floor, numberToString, padStart]
    decide

/-! ## Playlist navigation -/

theorem findIndex_of_first (songs : List Song) (pred : Song → Bool) (i : ℕ)
    (hi : i < songs.length) (hp : songs[i]?.map pred = some true)
    (hfirst : ∀ j < i, songs[j]?.map pred ≠ some true) :
    findIndex songs pred = (i : ℤ) := by
  have hidx : songs.findIdx pred = i := by
    rw [List.findIdx_eq hi]
    constructor
    · simpa [List.getElem?_eq_getElem hi] using hp
    · intro j hji
      have := hfirst j hji
      simpa [List.getElem?_eq_getElem (Nat.lt_trans hji hi)] using this
  simp [findIndex, hidx, hi]

theorem elementAt_natCast (songs : List Song) (n : ℕ) :
    elementAt songs (some (n : ℤ)) = songs[n]? := rfl

theorem nextIndex_eq (i N : ℕ) (hN : 0 < N) :
    jsRemInt ((i : ℤ) + 1) N = some (((i + 1) % N : ℕ) : ℤ) := by
  have h0 : (N : ℤ) ≠ 0 := by omega
  simp only [jsRemInt, if_neg h0]
  rw [Int.ofNat_tmod]
  push_cast
  rfl

theorem prevIndex_eq (i N : ℕ) (hN : 0 < N) :
    jsRemInt ((i : ℤ) - 1 + N) N = some (((i + N - 1) % N : ℕ) : ℤ) := by
  have h0 : (N : ℤ) ≠ 0 := by omega
  have h1 : (i : ℤ) - 1 + N = ((i + N - 1 : ℕ) : ℤ) := by omega
  simp only [jsRemInt, if_neg h0]
  rw [h1, Int.ofNat_tmod]

theorem prevIndex_toNat (i N : ℕ) (hN : 0 < N) :
    (((i : ℤ) - 1 + N) % N).toNat = (i + N - 1) % N := by
  have h1 : (i : ℤ) - 1 + N = ((i + N - 1 : ℕ) : ℤ) := by omega
  rw [h1, Int.ofNat_mod_ofNat, Int.toNat_ofNat]

/-- The state written by `playNext` when `findIndex` returns `i`. -/
theorem playNext_state (r : PlaybackState) (ok : Bool) (p : Player) (i : ℕ)
    (hN : 0 < r.songs.length)
    (hidx : findIndex r.songs (fun s => some s.id == r.currentSong.map Song.id) = (i : ℤ)) :
    (playNext r ok p).state =
      { p.state with currentSong := r.songs[(i + 1) % r.songs.length]?, isPlaying := true } := by
  simp only [playNext, playSong, hidx, nextIndex_eq i _ hN, elementAt_natCast]

/-- The state written by `playPrevious` when `findIndex` returns `i`. -/
theorem playPrevious_state (r : PlaybackState) (ok : Bool) (p : Player) (i : ℕ)
    (hN : 0 < r.songs.length)
    (hidx : findIndex r.songs (fun s => some s.id == r.currentSong.map Song.id) = (i : ℤ)) :
    (playPrevious r ok p).state =
      { p.state with
        currentSong := r.songs[(i + r.songs.length - 1) % r.songs.length]?, isPlaying := true } := by
  simp only [playPrevious, playSong, hidx, prevIndex_eq i _ hN, elementAt_natCast]

theorem findIndex_current (r : PlaybackState) (c : Song) (i : ℕ)
    (hc : r.currentSong = some c) (hi : i < r.songs.length)
    (hid : r.songs[i]?.map Song.id = some c.id)
    (hfirst : ∀ j < i, r.songs[j]?.map Song.id ≠ some c.id) :
    findIndex r.songs (fun s => some s.id == r.currentSong.map Song.id) = (i : ℤ) := by
  apply findIndex_of_first _ _ i hi
  · rw [List.getElem?_eq_getElem hi] at hid ⊢
    simp only [Option.map_some', Option.some.injEq] at hid
    simp [hc, hid]
  · intro j hji
    have hj := hfirst j hji
    rw [List.getElem?_eq_getElem (Nat.lt_trans hji hi)] at hj ⊢
    simp only [Option.map_some', ne_eq, Option.some.injEq] at hj
    simp [hc, hj]

/-- C2: on a non-empty playlist of length `N`, with `i` the first index whose id
equals the id of the current song, `playNext` makes entry `(i + 1) mod N` the
current song and `playPrevious` makes entry `(i - 1 + N) mod N` the current
song; both set `isPlaying` and leave the playlist unchanged. -/
theorem playNext_playPrevious_spec (p : Player) (c : Song) (i : ℕ) (ok : Bool)
    (hne : p.state.songs ≠ [])
    (hc : p.state.currentSong = some c) (hi : i < p.state.songs.length)
    (hid : p.state.songs[i]?.map Song.id = some c.id)
    (hfirst : ∀ j < i, p.state.songs[j]?.map Song.id ≠ some c.id) :
    ((playNext p.state ok p).state.currentSong
        = p.state.songs[(i + 1) % p.state.songs.length]? ∧
      (playNext p.state ok p).state.currentSong.isSome = true ∧
      (playNext p.state ok p).state.isPlaying = true ∧
      (playNext p.state ok p).state.songs = p.state.songs) ∧
    ((playPrevious p.state ok p).state.currentSong
        = p.state.songs[(((i : ℤ) - 1 + p.state.songs.length) % p.state.songs.length).toNat]? ∧
      (playPrevious p.state ok p).state.currentSong.isSome = true ∧
      (playPrevious p.state ok p).state.isPlaying = true ∧
      (playPrevious p.state ok p).state.songs = p.state.songs) := by
  have hN : 0 < p.state.songs.length := List.length_pos.mpr hne
  have hidx := findIndex_current p.state c i hc hi hid hfirst
  have hn : (i + 1) % p.state.songs.length < p.state.songs.length := Nat.mod_lt _ hN
  have hp : (i + p.state.songs.length - 1) % p.state.songs.length < p.state.songs.length :=
    Nat.mod_lt _ hN
  rw [playNext_state p.state ok p i hN hidx, playPrevious_state p.state ok p i hN hidx,
    prevIndex_toNat i _ hN]
  simp [List.getElem?_eq_getElem hn, List.getElem?_eq_getElem hp]

/-- With pairwise distinct ids, entry `i` is the first entry carrying its id. -/
theorem findIndex_entry (r : PlaybackState) (i : ℕ)
    (hnodup : (r.songs.map Song.id).Nodup) (hi : i < r.songs.length)
    (hc : r.currentSong = r.songs[i]?) :
    findIndex r.songs (fun s => some s.id == r.currentSong.map Song.id) = (i : ℤ) := by
  rw [List.getElem?_eq_getElem hi] at hc
  apply findIndex_current r _ i hc hi
  · simp [List.getElem?_eq_getElem hi]
  · intro j hji heq
    have hj : j < r.songs.length := Nat.lt_trans hji hi
    have h1 : (r.songs.map Song.id)[j]? = (r.songs.map Song.id)[i]? := by
      rw [List.getElem?_map, List.getElem?_map, heq, List.getElem?_eq_getElem hi]
      rfl
    have hlen : j < (r.songs.map Song.id).length := by simpa using hj
    have := (List.nodup_iff_getElem?_ne_getElem?.mp hnodup) j i hji (by simpa using hi)
    exact this h1

theorem pressNext_after (L : List Song) (hnodup : (L.map Song.id).Nodup) (oks : List Bool) :
    ∀ (q : Player) (i : ℕ), q.state.songs = L → i < L.length → q.state.currentSong = L[i]? →
      (pressNext q oks).state.songs = L ∧
      (pressNext q oks).state.currentSong = L[(i + oks.length) % L.length]? := by
  induction oks with
  | nil =>
    intro q i hs hi hc
    simp [pressNext, hs, hc, Nat.mod_eq_of_lt hi]
  | cons ok rest ih =>
    intro q i hs hi hc
    have hN : 0 < q.state.songs.length := by rw [hs]; omega
    have hidx := findIndex_entry q.state i (hs ▸ hnodup) (hs ▸ hi) (hs ▸ hc)
    have hst := playNext_state q.state ok q i hN hidx
    have hstep := ih (playNext q.state ok q) ((i + 1) % L.length)
      (by rw [hst, ← hs]) (Nat.mod_lt _ (by omega)) (by rw [hst, ← hs])
    simp only [pressNext, List.foldl_cons] at hstep ⊢
    refine ⟨hstep.1, ?_⟩
    rw [hstep.2, List.length_cons]
    congr 1
    rw [Nat.mod_add_mod]
    congr 1
    omega

theorem pressPrevious_after (L : List Song) (hnodup : (L.map Song.id).Nodup)
    (oks : List Bool) :
    ∀ (q : Player) (i : ℕ), q.state.songs = L → i < L.length → q.state.currentSong = L[i]? →
      (pressPrevious q oks).state.songs = L ∧
      (pressPrevious q oks).state.currentSong
        = L[(i + oks.length * (L.length - 1)) % L.length]? := by
  induction oks with
  | nil =>
    intro q i hs hi hc
    simp [pressPrevious, hs, hc, Nat.mod_eq_of_lt hi]
  | cons ok rest ih =>
    intro q i hs hi hc
    have hN : 0 < q.state.songs.length := by rw [hs]; omega
    have hidx := findIndex_entry q.state i (hs ▸ hnodup) (hs ▸ hi) (hs ▸ hc)
    have hst := playPrevious_state q.state ok q i hN hidx
    have hstep := ih (playPrevious q.state ok q) ((i + L.length - 1) % L.length)
      (by rw [hst, ← hs]) (Nat.mod_lt _ (by omega)) (by rw [hst, ← hs])
    simp only [pressPrevious, List.foldl_cons] at hstep ⊢
    refine ⟨hstep.1, ?_⟩
    rw [hstep.2, List.length_cons]
    congr 1
    rw [Nat.mod_add_mod]
    congr 1
    rw [Nat.add_mul]
    omega

/-- C3 (amended): on a playlist of length `N` whose ids are pairwise distinct,
starting from a current song that is an entry of the playlist, `N` presses of
Next bring the current song back to the starting song, and so do `N` presses of
Previous. -/
theorem press_cycle (p : Player) (c : Song) (oks : List Bool)
    (hnodup : (p.state.songs.map Song.id).Nodup)
    (hc : p.state.currentSong = some c) (hmem : c ∈ p.state.songs)
    (hlen : oks.length = p.state.songs.length) :
    (pressNext p oks).state.currentSong = some c ∧
    (pressPrevious p oks).state.currentSong = some c := by
  obtain ⟨i, hi, hci⟩ := List.getElem_of_mem hmem
  have hcur : p.state.currentSong = p.state.songs[i]? := by
    rw [hc, List.getElem?_eq_getElem hi, hci]
  have hn := (pressNext_after p.state.songs hnodup oks p i rfl hi hcur).2
  have hp := (pressPrevious_after p.state.songs hnodup oks p i rfl hi hcur).2
  rw [hlen] at hn hp
  constructor
  · rw [hn, Nat.add_mod_right, Nat.mod_eq_of_lt hi, List.getElem?_eq_getElem hi, hci]
  · rw [hp, Nat.add_mul_mod_self_left, Nat.mod_eq_of_lt hi, List.getElem?_eq_getElem hi, hci]

theorem playNext_playPrevious_spec_witness :
    (playNext (loaded [songA, songB, songC]).state true (loaded [songA, songB, songC])).state.currentSong
      = some songB ∧
    (playPrevious (loaded [songA, songB, songC]).state true
      (loaded [songA, songB, songC])).state.currentSong = some songC := by
  have h := playNext_playPrevious_spec (loaded [songA, songB, songC]) songA 0 true
    (by decide) (by decide) (by decide) (by decide) (by decide)
  exact ⟨h.1.1.trans (by decide), h.2.1.trans (by decide)⟩

/-- C3 (as stated) fails: after the request returned three entries of which the
first and the last share an id, three presses of Next leave the second entry
current and three presses of Previous the third, not the starting first entry;
and from a current song that is no entry of a two-entry playlist, two presses
do not come back to it either. -/
theorem shared_id_breaks_cycle :
    (loaded [songA, songB, songD]).state.songs.length = 3 ∧
    (loaded [songA, songB, songD]).state.currentSong = some songA ∧
    (pressNext (loaded [songA, songB, songD]) [true, true, true]).state.currentSong
      = some songB ∧
    (pressPrevious (loaded [songA, songB, songD]) [true, true, true]).state.currentSong
      = some songD ∧
    strayPlayer.state.songs.length = 2 ∧
    strayPlayer.state.currentSong = some songC ∧
    (pressNext strayPlayer [true, true]).state.currentSong = some songB ∧
    (pressPrevious strayPlayer [true, true]).state.currentSong = some songB := by
  decide

theorem press_cycle_witness :
    (pressNext (loaded [songA, songB, songC]) [true, false, true]).state.currentSong
      = some songA ∧
    (pressPrevious (loaded [songA, songB, songC]) [true, false, true]).state.currentSong
      = some songA :=
  press_cycle (loaded [songA, songB, songC]) songA [true, false, true]
    (by decide) (by decide) (by decide) (by decide)

/-! ## End of track -/

/-- Whatever the live state, the `ended` listener clears the current song: the
`playNext` it calls indexes the empty playlist of the first render. -/
theorem handleEnded_state (ok : Bool) (p : Player) :
    (handleEnded ok p).state = { p.state with currentSong := none, isPlaying := true } := by
  rfl

/-- C4 (the code at the failing input): with three entries loaded and the last
one current, `ended` leaves no current song, where pressing Next makes entry 0
current; with the first one current, `ended` again leaves no current song, where
pressing Next makes entry 1 current. -/
theorem ended_differs_from_next :
    (step (loaded [songA, songB, songC]) (Event.clickSong 2 true)).state.currentSong
      = some songC ∧
    (step (step (loaded [songA, songB, songC]) (Event.clickSong 2 true))
      (Event.ended true)).state.currentSong = none ∧
    (step (step (loaded [songA, songB, songC]) (Event.clickSong 2 true))
      (Event.clickNext true)).state.currentSong = some songA ∧
    (step (loaded [songA, songB, songC]) (Event.ended true)).state.currentSong = none ∧
    (step (loaded [songA, songB, songC]) (Event.clickNext true)).state.currentSong
      = some songB := by
  decide

/-! ## Transport operations without a song -/

/-- C5 (as stated) fails: on the freshly mounted player, which has no current
song, `playNext` and `playPrevious` set `isPlaying` and `handleTimelineChange`
moves `currentTime`. -/
theorem unguarded_handlers_act_without_song :
    mounted.state.currentSong = none ∧
    mounted.state.isPlaying = false ∧
    (playNext mounted.state true mounted).state.isPlaying = true ∧
    (playPrevious mounted.state true mounted).state.isPlaying = true ∧
    mounted.state.currentTime = Double.fin 0 ∧
    (handleTimelineChange (Double.fin 5) mounted).state.currentTime = Double.fin 5 ∧
    (playNext mounted.state true mounted).state ≠ mounted.state ∧
    (playPrevious mounted.state true mounted).state ≠ mounted.state ∧
    (handleTimelineChange (Double.fin 5) mounted).state ≠ mounted.state := by
  refine ⟨rfl, rfl, rfl, rfl, rfl, rfl, ?_, ?_, ?_⟩
  · intro h
    have := congrArg PlaybackState.isPlaying h
    exact absurd this (by decide)
  · intro h
    have := congrArg PlaybackState.isPlaying h
    exact absurd this (by decide)
  · intro h
    have h5 : (5 : ℚ) = 0 := Double.fin.inj (congrArg PlaybackState.currentTime h)
    norm_num at h5

/-- C5 (amended): when no song is loaded, `togglePlayPause` returns at its guard
and changes nothing, and the Previous, Play/Pause and Next buttons and the
slider are disabled, so a press or slider input dispatched through the page
leaves the player as it was. -/
theorem controls_inert_without_song (p : Player) (ok : Bool) (v : Double)
    (h : p.state.currentSong = none) :
    togglePlayPause p.state ok p = p ∧
    step p (Event.clickPlayPause ok) = p ∧
    step p (Event.clickPrevious ok) = p ∧
    step p (Event.clickNext ok) = p ∧
    step p (Event.sliderInput v) = p := by
  simp [togglePlayPause, step, render, h]

theorem controls_inert_without_song_witness :
    togglePlayPause mounted.state true mounted = mounted ∧
    step mounted (Event.clickPlayPause true) = mounted ∧
    step mounted (Event.clickPrevious true) = mounted ∧
    step mounted (Event.clickNext true) = mounted ∧
    step mounted (Event.sliderInput (Double.fin 5)) = mounted :=
  controls_inert_without_song mounted true (Double.fin 5) rfl

/-! ## Playlist loader -/

/-- C6: a response with an ok status whose body holds the non-empty list
`first :: rest`, applied to the freshly mounted player, stores that list, makes
`first` the current song and leaves `isPlaying` false; with an empty list or no
`songs` field the playlist is empty and there is still no current song. -/
theorem fetch_success_spec (status : ℕ) (first : Song) (rest : List Song)
    (hok : 200 ≤ status ∧ status ≤ 299) :
    ((onFetchSettled (FetchResult.response status (Body.json (some (first :: rest))))
        mounted).state.songs = first :: rest ∧
      (onFetchSettled (FetchResult.response status (Body.json (some (first :: rest))))
        mounted).state.currentSong = some first ∧
      (onFetchSettled (FetchResult.response status (Body.json (some (first :: rest))))
        mounted).state.isPlaying = false) ∧
    ((onFetchSettled (FetchResult.response status (Body.json (some []))) mounted).state.songs
        = [] ∧
      (onFetchSettled (FetchResult.response status (Body.json (some [])))
        mounted).state.currentSong = none) ∧
    ((onFetchSettled (FetchResult.response status (Body.json none)) mounted).state.songs = [] ∧
      (onFetchSettled (FetchResult.response status (Body.json none))
        mounted).state.currentSong = none) := by
  have h : responseOk status = true := by simp [responseOk, hok.1, hok.2]
  simp [onFetchSettled, h, mounted, initialState]

theorem fetch_success_spec_witness :
    (onFetchSettled (FetchResult.response 200 (Body.json (some [songA, songB])))
      mounted).state.currentSong = some songA :=
  (fetch_success_spec 200 songA [songB] (by decide)).1.2.1

/-- C7: after a request that failed (a transport error, or a response whose
status is outside 200-299, whatever its body), applied to the freshly mounted
player, the state cells are the initial ones: empty playlist, no current song,
`isPlaying` false; the three transport buttons and the slider are rendered
disabled. -/
theorem fetch_failure_spec (res : FetchResult)
    (hfail : ∀ status body, res = FetchResult.response status body →
      ¬ (200 ≤ status ∧ status ≤ 299)) :
    (onFetchSettled res mounted).state = initialState ∧
    (onFetchSettled res mounted).state.songs = [] ∧
    (onFetchSettled res mounted).state.currentSong = none ∧
    (onFetchSettled res mounted).state.isPlaying = false ∧
    (render (onFetchSettled res mounted).state).previousDisabled = true ∧
    (render (onFetchSettled res mounted).state).playPauseDisabled = true ∧
    (render (onFetchSettled res mounted).state).nextDisabled = true ∧
    (render (onFetchSettled res mounted).state).sliderDisabled = true := by
  have hst : (onFetchSettled res mounted).state = initialState := by
    cases res with
    | rejected msg => rfl
    | response status body =>
      have h : responseOk status = false := by
        have := hfail status body rfl
        simp only [responseOk, Bool.and_eq_false_iff, decide_eq_false_iff_not]
        tauto
      simp [onFetchSettled, h, mounted]
  rw [hst]
  simp [initialState, render]

theorem fetch_failure_spec_witness :
    (onFetchSettled (FetchResult.response 500 (Body.json (some [songA]))) mounted).state
      = initialState ∧
    (onFetchSettled (FetchResult.rejected "Failed to fetch") mounted).state = initialState :=
  ⟨(fetch_failure_spec (FetchResult.response 500 (Body.json (some [songA])))
      (by intro status body h; cases h; decide)).1,
   (fetch_failure_spec (FetchResult.rejected "Failed to fetch")
      (by intro status body h; cases h)).1⟩

/-! ## Seek and toggle -/

/-- C8: for every player and every seek target `v` (in particular every `v` in
`[0, duration]`), the seek handler itself stores `v` in `currentTime`, with no
`timeupdate` event involved, so the page shows `formatTime v` as elapsed time;
`songs`, `currentSong`, `isPlaying` and `duration` keep their values. -/
theorem handleTimelineChange_spec (p : Player) (v : Double) :
    (handleTimelineChange v p).state.currentTime = v ∧
    (render (handleTimelineChange v p).state).elapsed = formatTime v ∧
    (handleTimelineChange v p).state.songs = p.state.songs ∧
    (handleTimelineChange v p).state.currentSong = p.state.currentSong ∧
    (handleTimelineChange v p).state.isPlaying = p.state.isPlaying ∧
    (handleTimelineChange v p).state.duration = p.state.duration :=
  ⟨rfl, rfl, rfl, rfl, rfl, rfl⟩

/-- C9: with a current song, `togglePlayPause` negates `isPlaying` whether the
native `play()` promise is fulfilled or rejected, and keeps `songs`,
`currentSong`, `currentTime` and `duration`; a second toggle gives back the
original state cells. -/
theorem togglePlayPause_spec (p : Player) (ok ok2 : Bool)
    (hcur : p.state.currentSong.isSome = true) :
    (togglePlayPause p.state ok p).state.isPlaying = !p.state.isPlaying ∧
    (togglePlayPause p.state ok p).state.songs = p.state.songs ∧
    (togglePlayPause p.state ok p).state.currentSong = p.state.currentSong ∧
    (togglePlayPause p.state ok p).state.currentTime = p.state.currentTime ∧
    (togglePlayPause p.state ok p).state.duration = p.state.duration ∧
    (togglePlayPause (togglePlayPause p.state ok p).state ok2
      (togglePlayPause p.state ok p)).state = p.state := by
  obtain ⟨⟨songs, cur, playing, t, d⟩, pending, native⟩ := p
  obtain ⟨c, hc⟩ := Option.isSome_iff_exists.mp hcur
  simp only at hc
  subst hc
  simp [togglePlayPause]

theorem togglePlayPause_spec_witness :
    (togglePlayPause (loaded [songA]).state false (loaded [songA])).state.isPlaying = true ∧
    (togglePlayPause (togglePlayPause (loaded [songA]).state false (loaded [songA])).state true
      (togglePlayPause (loaded [songA]).state false (loaded [songA]))).state
      = (loaded [songA]).state := by
  have h := togglePlayPause_spec (loaded [songA]) false true (by decide)
  exact ⟨h.1.trans (by decide), h.2.2.2.2.2⟩

/-! ## Reachable states -/

theorem elementAt_mem (songs : List Song) (k : Option ℤ) (c : Song)
    (h : elementAt songs k = some c) : c ∈ songs := by
  match k, h with
  | some (Int.ofNat n), h => exact List.mem_iff_getElem?.mpr ⟨n, h⟩

theorem invariant_mounted : Invariant mounted :=
  ⟨fun _ => ⟨rfl, rfl⟩, fun c h => by simp [mounted, initialState] at h⟩

theorem invariant_playSong (p : Player) (song : Option Song) (ok : Bool)
    (hp : p.fetchPending = false) (hsong : ∀ c, song = some c → c ∈ p.state.songs) :
    Invariant (playSong song ok p) :=
  ⟨fun h => by simp [playSong, hp] at h, fun c h => hsong c h⟩

theorem invariant_onFetchSettled (p : Player) (res : FetchResult)
    (hinv : Invariant p) (hp : p.fetchPending = true) :
    Invariant { onFetchSettled res p with fetchPending := false } := by
  obtain ⟨hs, hc⟩ := hinv.1 hp
  refine ⟨fun h => by simp at h, ?_⟩
  intro c
  cases res with
  | rejected msg => simp [onFetchSettled, hc]
  | response status body =>
    cases body with
    | unparsable => cases hok : responseOk status <;> simp [onFetchSettled, hok, hc]
    | json songs =>
      cases hok : responseOk status
      · simp [onFetchSettled, hok, hc]
      · cases hl : songs.getD [] with
        | nil => simp [onFetchSettled, hok, hl, hc]
        | cons first rest =>
          simp only [onFetchSettled, hok, hl, if_true, List.length_cons, Nat.zero_lt_succ,
            List.getElem?_cons_zero, Option.some.injEq]
          intro h
          simp [← h]

theorem invariant_step (p : Player) (e : Event) (hinv : Invariant p) :
    Invariant (step p e) := by
  cases hpend : p.fetchPending
  · -- the request has settled
    cases e with
    | fetchSettled res => simpa [step, hpend] using hinv
    | clickSong index ok =>
      simp only [step]
      cases hs : p.state.songs[index]? with
      | none => exact hinv
      | some song =>
        exact invariant_playSong p _ ok hpend fun c h =>
          List.mem_iff_getElem?.mpr ⟨index, by rw [hs, h]⟩
    | clickPrevious ok =>
      simp only [step]
      split
      · exact hinv
      · exact invariant_playSong p _ ok hpend fun c h => elementAt_mem _ _ c h
    | clickPlayPause ok =>
      simp only [step]
      split
      · exact hinv
      · simp only [togglePlayPause]
        split
        · exact hinv
        · exact ⟨fun h => by simp [hpend] at h, hinv.2⟩
    | clickNext ok =>
      simp only [step]
      split
      · exact hinv
      · exact invariant_playSong p _ ok hpend fun c h => elementAt_mem _ _ c h
    | sliderInput v =>
      simp only [step]
      split
      · exact hinv
      · exact ⟨fun h => by simp [handleTimelineChange, hpend] at h, hinv.2⟩
    | timeupdate t => exact ⟨fun h => by simp [step, handleTimeUpdate, hpend] at h, hinv.2⟩
    | loadedmetadata d => exact ⟨fun h => by simp [step, handleLoadedMetadata, hpend] at h, hinv.2⟩
    | ended ok =>
      exact invariant_playSong p _ ok hpend fun c h => by
        simp [initialState, elementAt_mem] at h
        exact absurd (elementAt_mem _ _ c h) (by simp)
  · -- the request is in flight: nothing is loaded
    obtain ⟨hs, hc⟩ := hinv.1 hpend
    cases e with
    | fetchSettled res =>
      simp only [step, hpend, if_true]
      exact invariant_onFetchSettled p res hinv hpend
    | clickSong index ok => simpa [step, hs] using hinv
    | clickPrevious ok => simpa [step, render, hc] using hinv
    | clickPlayPause ok => simpa [step, render, hc] using hinv
    | clickNext ok => simpa [step, render, hc] using hinv
    | sliderInput v => simpa [step, render, hc] using hinv
    | timeupdate t => exact ⟨fun _ => ⟨hs, hc⟩, fun c h => by simp [step, handleTimeUpdate, hc] at h⟩
    | loadedmetadata d =>
      exact ⟨fun _ => ⟨hs, hc⟩, fun c h => by simp [step, handleLoadedMetadata, hc] at h⟩
    | ended ok =>
      exact ⟨fun _ => ⟨hs, rfl⟩, fun c h => by
        simp [step, handleEnded_state] at h⟩

theorem invariant_run (events : List Event) :
    ∀ p, Invariant p → Invariant (run p events) := by
  induction events with
  | nil => exact fun p h => h
  | cons e rest ih => exact fun p h => ih (step p e) (invariant_step p e h)

/-- C10: in every state reached from the freshly mounted player by any sequence
of events (request settling, playlist clicks, button presses, slider input,
`timeupdate`, `loadedmetadata`, `ended`), a current song, when there is one, is
an entry of the playlist; hence when the playlist is empty there is no current
song, the Previous, Play/Pause and Next buttons are disabled, and a press of
Next or Previous runs no handler. -/
theorem reachable_invariant (events : List Event) :
    (∀ c, (run mounted events).state.currentSong = some c →
      c ∈ (run mounted events).state.songs) ∧
    ((run mounted events).state.songs = [] →
      (run mounted events).state.currentSong = none ∧
      (render (run mounted events).state).previousDisabled = true ∧
      (render (run mounted events).state).playPauseDisabled = true ∧
      (render (run mounted events).state).nextDisabled = true ∧
      ∀ ok, step (run mounted events) (Event.clickNext ok) = run mounted events ∧
        step (run mounted events) (Event.clickPrevious ok) = run mounted events) := by
  have hinv := invariant_run events mounted invariant_mounted
  refine ⟨hinv.2, fun hempty => ?_⟩
  have hnone : (run mounted events).state.currentSong = none := by
    cases hc : (run mounted events).state.currentSong with
    | none => rfl
    | some c =>
      have := hinv.2 c hc
      rw [hempty] at this
      exact absurd this (List.not_mem_nil c)
  simp [step, render, hnone]

end AudioPlayer
